import Mathlib

set_option maxRecDepth 100000

/-!
Verification development for the DataManager / cloudraidfs repository.

The definitions below are shallow embeddings of the C++ sources:
bytes are `Nat` values kept below 256, byte strings are `List Nat`,
`std::vector<std::vector<uint8_t>>` matrices appear either as
`List (List Nat)` or, where the source mutates them through references,
as functions `Nat → Nat → Nat` updated pointwise.  Fallible functions
return `Option`.
-/

namespace CloudRaid

/-! ## GF(256) arithmetic (rs_coder.cpp, gf_init_table / gf_mul / gf_inv)

The C++ builds a 256×256 table with the Russian-peasant loop over the
reduction polynomial 0x11D; `gf_mul` is a table lookup, i.e. exactly the
loop below.  `aa <<= 1` on a `uint8_t` is multiplication by two mod 256.
-/

/-- One step of the table generator: `aa <<= 1; if (hi) aa ^= 0x1D;`. -/
def xtime (a : Nat) : Nat :=
  if a &&& 128 = 0 then (2 * a) % 256 else ((2 * a) % 256) ^^^ 29

/-- The `while (bb)` loop of `gf_init_table`, run for a fixed 8 bit
positions (`bb` is a `uint8_t`, so at most 8 iterations do work and the
remaining ones add nothing). -/
def mulBits : Nat → Nat → Nat → Nat
  | 0, _, _ => 0
  | n + 1, a, b => (if b % 2 = 1 then a else 0) ^^^ mulBits n (xtime a) (b / 2)

/-- `RSCoder::gf_mul` — product in GF(256) with reduction polynomial
x^8 + x^4 + x^3 + x^2 + 1. -/
def gf_mul (a b : Nat) : Nat := mulBits 8 a b

/-- The scan `for (i = 1; i < 256; i++) if (mul(a,i) == 1) return i;`. -/
def invScan (a : Nat) : Nat → Nat → Nat
  | _, 0 => 0
  | i, fuel + 1 => if gf_mul a i = 1 then i else invScan a (i + 1) fuel

/-- `RSCoder::gf_inv` — multiplicative inverse by linear search
(returns 0 for the zero byte). -/
def gf_inv (a : Nat) : Nat :=
  if a = 0 then 0 else invScan a 1 255

/-- Abstract power in GF(256); characterises the `v = gf_mul(v, x)`
accumulator of `build_matrix`. -/
def gf_pow (x : Nat) : Nat → Nat
  | 0 => 1
  | c + 1 => gf_mul (gf_pow x c) x

/-! ## Encoder matrix (RSCoder::build_matrix) -/

/-- Inner column loop of `build_matrix`: emit `v`, then `v = gf_mul(v, x)`. -/
def vandRowAux (x : Nat) : Nat → Nat → List Nat
  | 0, _ => []
  | cols + 1, v => v :: vandRowAux x cols (gf_mul v x)

/-- One row of the encoder matrix for evaluation point `x`. -/
def vandRow (x k : Nat) : List Nat := vandRowAux x k 1

/-- `RSCoder::build_matrix` — the (k+m)×k matrix with row `r` built from
the point `x = (uint8_t)(r + 1)`. -/
def build_matrix (k m : Nat) : List (List Nat) :=
  (List.range (k + m)).map (fun row => vandRow ((row + 1) % 256) k)

/-- Entry access `matrix[r][c]` with the vector default. -/
def matEntry (mat : List (List Nat)) (r c : Nat) : Nat :=
  (mat.getD r []).getD c 0

/-! ## Little-endian integers (the 8-byte `orig_size` header written by
`memcpy` of a `uint64_t`, and the u32/u64 fields of the metadata format) -/

/-- Little-endian byte list of width `w` for the value `n`. -/
def natToLE : Nat → Nat → List Nat
  | 0, _ => []
  | w + 1, n => (n % 256) :: natToLE w (n / 256)

/-- Value of a little-endian byte list. -/
def leToNat : List Nat → Nat
  | [] => 0
  | b :: rest => b + 256 * leToNat rest

/-! ## RSCoder::encode -/

/-- Byte `b` of output row `row`:
`acc ^= gf_mul(mat[row][col], padded[col*chunk_size + b])` over the
data columns. -/
def encodeByte (mat : List (List Nat)) (padded : List Nat)
    (k cs row b : Nat) : Nat :=
  (List.range k).foldl
    (fun acc col => acc ^^^ gf_mul (matEntry mat row col) (padded.getD (col * cs + b) 0)) 0

/-- Chunk size used by `RSCoder::encode`: `(data.size() + k - 1) / k`. -/
def chunkSize (len k : Nat) : Nat := (len + k - 1) / k

/-- The zero padding `padded.resize(chunk_size * k, 0)`. -/
def padData (data : List Nat) (k : Nat) : List Nat :=
  data ++ List.replicate (chunkSize data.length k * k - data.length) 0

/-- The `k + m` raw output rows of `RSCoder::encode`, before the header
is attached to chunk 0. -/
def encBody (data : List Nat) (k m : Nat) : List (List Nat) :=
  (List.range (k + m)).map (fun row =>
    (List.range (chunkSize data.length k)).map
      (fun b => encodeByte (build_matrix k m) (padData data k) k (chunkSize data.length k) row b))

/-- `RSCoder::encode` — split `data` into `k` zero-padded columns of
`chunk_size = ceil(|data|/k)` bytes, multiply by the encoder matrix, and
prepend the 8-byte little-endian original length to chunk 0. -/
def encode (data : List Nat) (k m : Nat) : Option (List (List Nat)) :=
  if k = 0 || m = 0 then none
  else
    match encBody data k m with
    | [] => some []
    | c0 :: rest => some ((natToLE 8 data.length ++ c0) :: rest)

/-! ## RSCoder::solve_matrix

`solve_matrix` receives the coefficient matrix through a non-const
reference and performs the forward elimination in place.  The matrix is
therefore modelled as a function `Nat → Nat → Nat` that the solver
returns in its transformed state, because `RSCoder::decode` constructs
the matrix once, outside its per-byte loop, and passes the same object
to every `solve_matrix` call. -/

/-- Matrices under in-place mutation. -/
def Mat : Type := Nat → Nat → Nat

/-- Right-hand sides / solutions. -/
def Vec : Type := Nat → Nat

/-- One pass of the forward-elimination body for pivot row `i` (after
the two zero-pivot checks): normalise row `i` by `inv`, then for every
lower row `r` subtract `f = mat[r][i]` times row `i`; columns run over
`[i, n)` exactly as in the source. -/
def elimStep (n i : Nat) (iv : Nat) (mat : Mat) (vec : Vec) : Mat × Vec :=
  let mat1 : Mat := fun r c =>
    if r = i ∧ i ≤ c ∧ c < n then gf_mul (mat r c) iv else mat r c
  let vec1 : Vec := fun r => if r = i then gf_mul (vec r) iv else vec r
  let mat2 : Mat := fun r c =>
    if i < r ∧ r < n ∧ i ≤ c ∧ c < n then mat1 r c ^^^ gf_mul (mat1 r i) (mat1 i c)
    else mat1 r c
  let vec2 : Vec := fun r =>
    if i < r ∧ r < n then vec1 r ^^^ gf_mul (mat1 r i) (vec1 i) else vec1 r
  (mat2, vec2)

/-- The `for (i = 0; i < n; i++)` forward-elimination loop, failing on a
zero pivot (`mat[i][i] == 0`, no row swap) or a zero `gf_inv`. -/
def fwdAux (n : Nat) : Nat → Nat → Mat × Vec → Option (Mat × Vec)
  | _, 0, s => some s
  | i, fuel + 1, s =>
    let piv := s.1 i i
    if piv = 0 then none
    else
      let iv := gf_inv piv
      if iv = 0 then none
      else fwdAux n (i + 1) fuel (elimStep n i iv s.1 s.2)

/-- Back-substitution accumulator for row `i`:
`acc = vec[i]; for (j = i+1; j < n; j++) acc ^= gf_mul(mat[i][j], sol[j]);`. -/
def backRow (n : Nat) (mat : Mat) (sol : Vec) (i v : Nat) : Nat :=
  (List.range (n - (i + 1))).foldl
    (fun acc t => acc ^^^ gf_mul (mat i (i + 1 + t)) (sol (i + 1 + t))) v

/-- The `for (i = n-1; i >= 0; i--)` back-substitution loop over the
zero-initialised solution vector. -/
def backAux (n : Nat) (mat : Mat) (vec : Vec) : Nat → Vec → Vec
  | 0, sol => sol
  | i + 1, sol =>
    let v := backRow n mat sol i (vec i)
    backAux n mat vec i (fun r => if r = i then v else sol r)

/-- `RSCoder::solve_matrix` — Gaussian elimination in GF(256) without
row swaps.  Returns the mutated matrix together with the solution, since
the caller keeps using the mutated object. -/
def solve_matrix (n : Nat) (mat : Mat) (vec : Vec) : Option (Mat × Vec) :=
  (fwdAux n 0 n (mat, vec)).map
    (fun s => (s.1, backAux n s.1 s.2 n (fun _ => 0)))

/-! ## RSCoder::decode -/

/-- The right-hand-side vector for byte offset `b`: entry `r` is the
byte at `offset` of the chunk at index `valid[r]`, where chunk 0 skips
its 8-byte header; any out-of-range access aborts the decode. -/
def decodeVec (chunks : List (List Nat)) (valid : List Nat) (k b : Nat) :
    Option Vec :=
  if (List.range k).all (fun r =>
      let idx := valid.getD r 0
      let off := if idx = 0 then 8 + b else b
      off + 1 ≤ (chunks.getD idx []).length) then
    some (fun r =>
      let idx := valid.getD r 0
      let off := if idx = 0 then 8 + b else b
      (chunks.getD idx []).getD off 0)
  else none

/-- The per-byte loop of `RSCoder::decode`.  The coefficient matrix is
threaded through the iterations because `solve_matrix` mutates it in
place and the source declares it outside the loop. -/
def decodeLoop (chunks : List (List Nat)) (valid : List Nat) (k : Nat) :
    Nat → Nat → Mat → List Vec → Option (List Vec)
  | _, 0, _, sols => some sols.reverse
  | b, fuel + 1, mat, sols =>
    match decodeVec chunks valid k b with
    | none => none
    | some vec =>
      match solve_matrix k mat vec with
      | none => none
      | some (mat2, sol) => decodeLoop chunks valid k (b + 1) fuel mat2 (sol :: sols)

/-- `RSCoder::decode` — recover the plaintext from a `(k+m)`-vector of
chunks in which empty entries denote missing shards. -/
def decode (chunks : List (List Nat)) (k m : Nat) : Option (List Nat) :=
  if chunks.length ≠ k + m then none
  else
    let chunk0 := chunks.getD 0 []
    if chunk0.length < 8 then none
    else
      let orig := leToNat (chunk0.take 8)
      let valid := ((List.range (k + m)).filter
        (fun i => (chunks.getD i []).length ≠ 0)).take k
      if valid.length < k then none
      else
        let idx0 := valid.getD 0 0
        let len0 := (chunks.getD idx0 []).length
        let cs? : Option Nat :=
          if idx0 = 0 then (if len0 < 8 then none else some (len0 - 8))
          else some len0
        match cs? with
        | none => none
        | some cs =>
          let mat0 : Mat := fun r c => gf_pow ((valid.getD r 0 + 1) % 256) c
          match decodeLoop chunks valid k 0 cs mat0 [] with
          | none => none
          | some sols =>
            let out := (List.range k).flatMap (fun i =>
              (List.range cs).map (fun b => (sols.getD b (fun _ => 0)) i))
            if out.length < orig then none else some (out.take orig)

/-! ## RAIDChunkStore (raid_chunk_store.cpp)

The dispatch layer owns `k + m` backends; backend `i` stores shard `i`.
A backend read is a `bool` plus a buffer, modelled as
`Option (List Nat)` (`none` = the call returned `false`, whatever the
reason — the `ChunkStore` interface of metadata_manager.h carries no
error detail).  The fan-out/join `std::async` calls touch disjoint
indices, so they are modelled sequentially. -/

/-- Outcome of the `k + m` backend `read_chunk` calls. -/
def Reads : Type := Nat → Option (List Nat)

/-- `present[i] = true` iff `backends[i]->read_chunk(...) && !buf.empty()`. -/
def shardPresent (reads : Reads) (i : Nat) : Bool :=
  match reads i with
  | none => false
  | some buf => !buf.isEmpty

/-- The `chunks` vector after the read fan-out: successful non-empty
reads land in their slot, everything else stays the empty string. -/
def raidChunks (reads : Reads) (n : Nat) : List (List Nat) :=
  (List.range n).map (fun i =>
    match reads i with
    | none => []
    | some buf => if buf.isEmpty then [] else buf)

/-- `ok_count` — number of present shards. -/
def okCount (reads : Reads) (n : Nat) : Nat :=
  ((List.range n).filter (fun i => shardPresent reads i)).length

/-- `RAIDChunkStore::repair_missing_chunks` — re-encode the decoded
plaintext and issue one backend write per absent position; the result
lists the `(backend index, payload)` writes issued. -/
def repair_missing_chunks (k m : Nat) (present : Nat → Bool)
    (data : List Nat) : List (Nat × List Nat) :=
  match encode data k m with
  | none => []
  | some chunks =>
    if chunks.length ≠ k + m then []
    else (List.range (k + m)).filterMap
      (fun i => if present i then none else some (i, chunks.getD i []))

/-- `RAIDChunkStore::read_chunk` — gather the backend reads, fail when
fewer than `k` shards are present, otherwise decode and spawn the
repair task.  Returns the decoded stripe together with the repair
writes. -/
def read_chunk (k m : Nat) (reads : Reads) :
    Option (List Nat × List (Nat × List Nat)) :=
  if okCount reads (k + m) < k then none
  else
    match decode (raidChunks reads (k + m)) k m with
    | none => none
    | some out => some (out, repair_missing_chunks k m (shardPresent reads) out)

/-- Backend contents: `store i s` is the shard held by backend `i` for
stripe `s` (ideal local backends: reads return exactly what is stored,
writes always succeed). -/
def Store : Type := Nat → Nat → Option (List Nat)

/-- `RAIDChunkStore::write_chunk` — encode and write shard `i` to
backend `i` for every `i < k + m`; with ideal backends all writes
succeed. -/
def write_chunk (k m stripe : Nat) (data : List Nat) (st : Store) :
    Option Store :=
  match encode data k m with
  | none => none
  | some chunks =>
    if chunks.length ≠ k + m then none
    else some (fun i s =>
      if i < k + m ∧ s = stripe then some (chunks.getD i []) else st i s)

/-- The read outcomes that ideal backends produce from a store. -/
def storeReads (st : Store) (stripe : Nat) : Reads := fun i => st i stripe

/-- Apply the repair writes of a read to the backing store. -/
def applyWrites (stripe : Nat) (ws : List (Nat × List Nat)) (st : Store) :
    Store :=
  ws.foldl
    (fun acc w => fun i s => if i = w.1 ∧ s = stripe then some w.2 else acc i s)
    st

/-! ## MetadataManager basics (metadata_manager.cpp) and
FileManager (file_manager.cpp)

The file layer is modelled with both cache pointers null (the
constructor accepts null `shared_ptr`s and every cache use is guarded
by an `if`), so reads go straight to the stripe store.  The
`unordered_map` of `MetadataManager` is modelled as an association
list in insertion order.  `files[path]` with `operator[]` is modelled
as lookup-with-default; the silent insertion of a default entry that
`operator[]` performs does not change any size/stripe observation. -/

/-- `FileMeta` of metadata_manager.h. -/
structure FileMetaR where
  size : Nat := 0
  stripes : List Nat := []
deriving Repr, DecidableEq

/-- The `files` table. -/
abbrev MetaFiles : Type := List (String × FileMetaR)

def metaLookup (files : MetaFiles) (p : String) : Option FileMetaR :=
  (files.find? (fun e => e.1 == p)).map Prod.snd

def metaSet (files : MetaFiles) (p : String) (f : FileMetaR) : MetaFiles :=
  if files.any (fun e => e.1 == p) then
    files.map (fun e => if e.1 == p then (p, f) else e)
  else files ++ [(p, f)]

/-- `MetadataManager::get_size`. -/
def get_size (files : MetaFiles) (p : String) : Nat :=
  ((metaLookup files p).getD {}).size

/-- `MetadataManager::set_size` (creates the file when absent). -/
def set_size (files : MetaFiles) (p : String) (sz : Nat) : MetaFiles :=
  metaSet files p { (metaLookup files p).getD {} with size := sz }

/-- `MetadataManager::add_stripe` (creates the file when absent). -/
def add_stripe (files : MetaFiles) (p : String) (id : Nat) : MetaFiles :=
  let f := (metaLookup files p).getD {}
  metaSet files p { f with stripes := f.stripes ++ [id] }

/-- `MetadataManager::get_stripes`. -/
def get_stripes (files : MetaFiles) (p : String) : List Nat :=
  ((metaLookup files p).getD {}).stripes

/-- `FileManager::STRIPE_SIZE` — 4 MiB. -/
def STRIPE_SIZE : Nat := 4 * 1024 * 1024

/-- Combined state of the file layer: metadata table, backend stores
and the stripe-ID allocator of the RAID layer
(`uint64_t next_stripe_id = 100`). -/
structure FMState where
  files : MetaFiles
  store : Store
  nextStripe : Nat

/-- `RAIDChunkStore::allocate_new_stripe` — `next_stripe_id++`. -/
def allocate_new_stripe (st : FMState) : Nat × FMState :=
  (st.nextStripe, { st with nextStripe := st.nextStripe + 1 })

/-- The `while (stripes.size() <= stripe_index)` loop of
`FileManager::ensure_stripe`; `idx + 1` iterations always suffice. -/
def ensureLoop (path : String) (idx : Nat) : Nat → FMState → FMState
  | 0, st => st
  | fuel + 1, st =>
    if (get_stripes st.files path).length ≤ idx then
      let (id, st1) := allocate_new_stripe st
      ensureLoop path idx fuel { st1 with files := add_stripe st1.files path id }
    else st

/-- `FileManager::ensure_stripe`. -/
def ensure_stripe (path : String) (idx : Nat) (st : FMState) : Nat × FMState :=
  let st1 := ensureLoop path idx (idx + 1) st
  ((get_stripes st1.files path).getD idx 0, st1)

/-- `FileManager::read_stripe` with a null chunk cache: on stripe-store
failure the stripe reads as all zeros and the call still succeeds; on
success the buffer is zero-extended to `STRIPE_SIZE` and the detached
repair writes land on the backends. -/
def read_stripe (k m stripe : Nat) (st : FMState) : List Nat × FMState :=
  match read_chunk k m (storeReads st.store stripe) with
  | none => (List.replicate STRIPE_SIZE 0, st)
  | some (out, ws) =>
    let out2 :=
      if out.length < STRIPE_SIZE then out ++ List.replicate (STRIPE_SIZE - out.length) 0
      else out
    (out2, { st with store := applyWrites stripe ws st.store })

/-- `FileManager::write_stripe` with a null chunk cache. -/
def write_stripe (k m stripe : Nat) (data : List Nat) (st : FMState) :
    Option FMState :=
  (write_chunk k m stripe data st.store).map (fun s2 => { st with store := s2 })

/-- `memcpy(&stripe_data[off], src, src.size())` on a buffer list. -/
def overlay (dst : List Nat) (off : Nat) (src : List Nat) : List Nat :=
  dst.take off ++ src ++ dst.drop (off + src.length)

/-- The read-modify-write loop of `FileManager::write`; the fuel is the
number of bytes left, which strictly dominates the iteration count. -/
def writeLoop (k m : Nat) (path : String) :
    Nat → Nat → List Nat → FMState → Option FMState
  | _, _, [], st => some st
  | 0, _, _ :: _, _ => none
  | fuel + 1, pos, rem, st =>
    let sOff := pos % STRIPE_SIZE
    let toW := min rem.length (STRIPE_SIZE - sOff)
    let idx := pos / STRIPE_SIZE
    let a := ensure_stripe path idx st
    let r := read_stripe k m a.1 a.2
    let newData := overlay r.1 sOff (rem.take toW)
    match write_stripe k m a.1 newData r.2 with
    | none => none
    | some st3 => writeLoop k m path fuel (pos + toW) (rem.drop toW) st3

/-- `FileManager::write` (file cache null, so only the stripe loop and
the final size update remain). -/
def fmWrite (k m : Nat) (path : String) (offset : Nat) (data : List Nat)
    (st : FMState) : Option FMState :=
  match writeLoop k m path data.length offset data st with
  | none => none
  | some st1 =>
    some { st1 with
      files :=
        if offset + data.length > get_size st1.files path then
          set_size st1.files path (offset + data.length)
        else st1.files }

/-- The per-stripe loop of `FileManager::read`. -/
def readLoop (k m : Nat) (path : String) :
    Nat → Nat → Nat → FMState → List Nat × FMState
  | 0, _, _, st => ([], st)
  | fuel + 1, pos, remaining, st =>
    if remaining = 0 then ([], st)
    else
      let sOff := pos % STRIPE_SIZE
      let toR := min remaining (STRIPE_SIZE - sOff)
      let idx := pos / STRIPE_SIZE
      let stripes := get_stripes st.files path
      let r :=
        if idx < stripes.length then read_stripe k m (stripes.getD idx 0) st
        else (List.replicate STRIPE_SIZE 0, st)
      let piece := (r.1.drop sOff).take toR
      let rest := readLoop k m path fuel (pos + toR) (remaining - toR) r.2
      (piece ++ rest.1, rest.2)

/-- `FileManager::read` with both caches null: clip to the file size
and read stripe by stripe; missing stripes (and failed stripe-store
reads inside `read_stripe`) surface as zero bytes, never as an error. -/
def fmRead (k m : Nat) (path : String) (offset size : Nat) (st : FMState) :
    Option (List Nat × FMState) :=
  let fsize := get_size st.files path
  if offset ≥ fsize then some ([], st)
  else
    let sz := if offset + size > fsize then fsize - offset else size
    some (readLoop k m path sz offset sz st)

/-! ## ChunkCache (chunk_cache.cpp) and FileCache (file_cache.cpp)

The two classes are line-for-line clones up to the key type, the heat
formula and FileCache's extra `max_file_size` admission check, so the
body is written once over the key type `κ` and the heat-score type `σ`,
and instantiated twice.  `std::chrono::steady_clock::now()` becomes an
explicit `now : Nat` (seconds); the heat scores, computed in `double`
in the source, are modelled exactly (`Int` for ChunkCache where the
formula is integral, `Rat` for FileCache where it divides); the
eviction order is the ascending sort the source performs, and none of
the proved properties depend on how `double` rounding ties are
broken. -/

/-- A cache entry (`ChunkCacheEntry` / `CacheEntry`); `file_size` of
the file cache always equals `data.size()` and is not duplicated. -/
structure CEntry where
  data : List Nat
  expire : Nat
  access : Nat
deriving Repr, DecidableEq

/-- Cache configuration (`ChunkCacheConfig` / `CacheConfig`). -/
structure CConfig where
  max_cache_size : Nat
  max_file_size : Nat
  cache_ttl_seconds : Nat
deriving Repr, DecidableEq

/-- Cache state: entry map, LRU key list (most recent first), the
`current_size_` counter and the hit/miss counters. -/
structure CState (κ : Type) where
  entries : List (κ × CEntry)
  lru : List κ
  size : Nat
  hits : Nat
  misses : Nat
deriving Repr, DecidableEq

/-- The empty cache. -/
def cinit {κ : Type} : CState κ := ⟨[], [], 0, 0, 0⟩

variable {κ : Type} [DecidableEq κ] {σ : Type} [LinearOrder σ]

/-- `remove_entry` — drop the map entry, fix `current_size_`, drop the
LRU node. -/
def remove_entry (id : κ) (st : CState κ) : CState κ :=
  match st.entries.find? (fun e => e.1 = id) with
  | none => st
  | some e =>
    { st with
      entries := st.entries.filter (fun x => x.1 ≠ id)
      size := st.size - e.2.data.length
      lru := st.lru.filter (fun x => x ≠ id) }

/-- `touch_lru` — move the key to the front when it is tracked. -/
def touch_lru (id : κ) (l : List κ) : List κ :=
  if l.contains id then id :: l.filter (fun x => x ≠ id) else l

/-- `cleanup_expired` / the purge phase of `make_room`: collect the
expired keys, then remove them. -/
def purgeExpired (now : Nat) (st : CState κ) : CState κ :=
  ((st.entries.filter (fun e => now > e.2.expire)).map Prod.fst).foldl
    (fun s id => remove_entry id s) st

/-- Ascending insertion into a score-sorted list (`std::sort` with
`a.second < b.second`; ties are unspecified in the source and the
claims do not depend on them). -/
def insertScored (x : κ × σ) : List (κ × σ) → List (κ × σ)
  | [] => [x]
  | y :: ys => if x.2 < y.2 then x :: y :: ys else y :: insertScored x ys

def sortScored : List (κ × σ) → List (κ × σ)
  | [] => []
  | x :: xs => insertScored x (sortScored xs)

/-- `make_room` for `heat` — refuse oversized payloads, purge expired
entries, then evict in ascending heat order until the request fits;
returns whether it fits. -/
def make_room (heat : CEntry → Nat → σ) (maxSize need now : Nat)
    (st : CState κ) : CState κ × Bool :=
  if need > maxSize then (st, false)
  else
    let st1 := purgeExpired now st
    if st1.size + need ≤ maxSize then (st1, true)
    else
      let scored := sortScored (st1.entries.map (fun e => (e.1, heat e.2 now)))
      let st2 := scored.foldl
        (fun s p => if s.size + need ≤ maxSize then s else remove_entry p.1 s) st1
      (st2, decide (st2.size + need ≤ maxSize))

/-- The common body of `ChunkCache::put` / `FileCache::put` (after
FileCache's `max_file_size` gate): drop any old entry for the key, call
`make_room`, and insert with `access_count = 1` when room was found. -/
def cachePut (heat : CEntry → Nat → σ) (maxSize ttl : Nat) (id : κ)
    (data : List Nat) (now : Nat) (st : CState κ) : CState κ :=
  let st1 :=
    match st.entries.find? (fun e => e.1 = id) with
    | some e =>
      { st with
        size := st.size - e.2.data.length
        lru := st.lru.filter (fun x => x ≠ id)
        entries := st.entries.filter (fun x => x.1 ≠ id) }
    | none => st
  let mr := make_room heat maxSize data.length now st1
  if mr.2 then
    { mr.1 with
      entries := mr.1.entries ++ [(id, ⟨data, now + ttl, 1⟩)]
      size := mr.1.size + data.length
      lru := id :: mr.1.lru }
  else mr.1

/-- The common body of `get`: miss on absence, expiry eviction on a
stale hit, TTL extension + access bump + LRU refresh on a live hit. -/
def cacheGet (ttl : Nat) (id : κ) (now : Nat) (st : CState κ) :
    Option (List Nat) × CState κ :=
  match st.entries.find? (fun e => e.1 = id) with
  | none => (none, { st with misses := st.misses + 1 })
  | some e =>
    if now > e.2.expire then
      let s1 := remove_entry id st
      (none, { s1 with misses := s1.misses + 1 })
    else
      (some e.2.data,
        { st with
          entries := st.entries.map (fun x =>
            if x.1 = id then (id, { x.2 with expire := now + ttl, access := x.2.access + 1 })
            else x)
          lru := touch_lru id st.lru
          hits := st.hits + 1 })

/-- `ChunkCache::calc_heat_score` — `access_count * (time_to_expire + 1)`,
`-1` when expired. -/
def chunkHeat (e : CEntry) (now : Nat) : Int :=
  let tte : Int := (e.expire : Int) - (now : Int)
  if tte < 0 then -1 else (e.access : Int) * (tte + 1)

/-- `FileCache::calc_heat_score` —
`access_count * (time_to_expire + 1) / (file_size / 1024 + 1)`,
`-1` when expired. -/
def fileHeat (e : CEntry) (now : Nat) : Rat :=
  let tte : Int := (e.expire : Int) - (now : Int)
  if tte < 0 then -1
  else ((e.access : Rat) * ((tte : Rat) + 1)) / ((e.data.length / 1024 : Nat) + 1 : Rat)

/-- `ChunkCache::put`. -/
def ChunkCache.put (cfg : CConfig) (id : Nat) (data : List Nat) (now : Nat)
    (st : CState Nat) : CState Nat :=
  cachePut chunkHeat cfg.max_cache_size cfg.cache_ttl_seconds id data now st

/-- `ChunkCache::get`. -/
def ChunkCache.get (cfg : CConfig) (id now : Nat) (st : CState Nat) :
    Option (List Nat) × CState Nat :=
  cacheGet cfg.cache_ttl_seconds id now st

/-- `FileCache::put` — refuses payloads above `max_file_size` before
touching the cache. -/
def FileCache.put (cfg : CConfig) (id : String) (data : List Nat) (now : Nat)
    (st : CState String) : CState String :=
  if data.length > cfg.max_file_size then st
  else cachePut fileHeat cfg.max_cache_size cfg.cache_ttl_seconds id data now st

/-- `FileCache::get`. -/
def FileCache.get (cfg : CConfig) (id : String) (now : Nat) (st : CState String) :
    Option (List Nat) × CState String :=
  cacheGet cfg.cache_ttl_seconds id now st

/-- One client operation against a cache. -/
inductive CacheOp (κ : Type) where
  | put (id : κ) (data : List Nat) (now : Nat)
  | get (id : κ) (now : Nat)
  | invalidate (id : κ)
  | cleanup (now : Nat)
deriving Repr

/-- Run a ChunkCache operation. -/
def ChunkCache.step (cfg : CConfig) (st : CState Nat) : CacheOp Nat → CState Nat
  | .put id data now => ChunkCache.put cfg id data now st
  | .get id now => (ChunkCache.get cfg id now st).2
  | .invalidate id => remove_entry id st
  | .cleanup now => purgeExpired now st

/-- Run a FileCache operation. -/
def FileCache.step (cfg : CConfig) (st : CState String) : CacheOp String → CState String
  | .put id data now => FileCache.put cfg id data now st
  | .get id now => (FileCache.get cfg id now st).2
  | .invalidate id => remove_entry id st
  | .cleanup now => purgeExpired now st

/-- A whole client history from the fresh cache. -/
def ChunkCache.run (cfg : CConfig) (ops : List (CacheOp Nat)) : CState Nat :=
  ops.foldl (ChunkCache.step cfg) cinit

def FileCache.run (cfg : CConfig) (ops : List (CacheOp String)) : CState String :=
  ops.foldl (FileCache.step cfg) cinit

/-- Total bytes actually held by the entries. -/
def cacheBytes (l : List (κ × CEntry)) : Nat :=
  (l.map (fun e => e.2.data.length)).sum

/-! ## AsyncUploader::async_write_stripe (async_uploader.cpp, per-shard
variant)

The admission path is single-threaded from the caller's point of view:
check the queue bound, encode, spool all `k+m` shards, mark the stripe
pending, enqueue `k+m` shard tasks.  Spool-write outcomes are
parametrised by `saveOk` (disk I/O); spool file contents are the shard
bytes keyed by `(stripe_id, chunk_index)`. -/

/-- `ChunkUploadTask` (the spool path is determined by
`(stripe_id, chunk_index)` via `get_chunk_cache_path`). -/
structure ChunkUploadTask where
  stripe : Nat
  chunkIndex : Nat
  retry : Nat := 0
deriving Repr, DecidableEq

/-- Queue, pending-stripes counter map and spool directory. -/
structure UploaderState where
  queue : List ChunkUploadTask
  pending : List (Nat × Nat)
  spool : List ((Nat × Nat) × List Nat)
deriving Repr, DecidableEq

def UploaderState.init : UploaderState := ⟨[], [], []⟩

/-- `pending_stripes_[stripe_id] = k + m`. -/
def setPending (l : List (Nat × Nat)) (stripe cnt : Nat) : List (Nat × Nat) :=
  if l.any (fun e => e.1 = stripe) then
    l.map (fun e => if e.1 = stripe then (stripe, cnt) else e)
  else l ++ [(stripe, cnt)]

/-- `AsyncUploader::async_write_stripe` — reject when
`queue_.size() >= config_.max_queue_size`; otherwise encode, write all
shards to the spool (cleaning up on a failed spool write), mark
pending, and enqueue one task per shard. -/
def async_write_stripe (max_queue_size k m stripe : Nat) (data : List Nat)
    (saveOk : Nat → Bool) (st : UploaderState) : Bool × UploaderState :=
  if st.queue.length ≥ max_queue_size then (false, st)
  else
    match encode data k m with
    | none => (false, st)
    | some chunks =>
      if chunks.length ≠ k + m then (false, st)
      else if (List.range (k + m)).all saveOk then
        let st1 := { st with
          spool := st.spool ++ (List.range (k + m)).map
            (fun i => ((stripe, i), chunks.getD i [])) }
        let st2 := { st1 with pending := setPending st1.pending stripe (k + m) }
        (true, { st2 with
          queue := st2.queue ++ (List.range (k + m)).map
            (fun i => { stripe := stripe, chunkIndex := i }) })
      else (false, st)

/-! ## MetadataManager serialization (the directory-bearing
metadata_manager.cpp variant, src/unnamed/part_005)

Paths are byte strings; the `unordered_map` / `unordered_set` iteration
order is modelled by the list order. -/

/-- `FileMeta` as serialized: `u64 size` and the stripe list. -/
structure FileMeta9 where
  size : Nat
  stripes : List Nat
deriving Repr, DecidableEq

/-- In-memory tables: `files` (`std::unordered_map`) and the explicit
`directories` set (`std::unordered_set`), with the container's
implementation-defined iteration order made explicit as the list
order.  States whose lists are permutations of one another represent
the same container contents; nothing in the C++ fixes which of those
orders a rebuilt container iterates in. -/
structure MetaState9 where
  files : List (List Nat × FileMeta9)
  dirs : List (List Nat)
deriving Repr, DecidableEq

/-- `META_PATH = "/.__cloudraidfs_meta"` as bytes. -/
def metaPathBytes : List Nat :=
  [47, 46, 95, 95, 99, 108, 111, 117, 100, 114, 97, 105, 100, 102, 115,
   95, 109, 101, 116, 97]

/-- `write_u32` — memcpy of a `uint32_t`, little-endian. -/
def serU32 (n : Nat) : List Nat := natToLE 4 (n % 2 ^ 32)

/-- `write_u64` — memcpy of a `uint64_t`, little-endian. -/
def serU64 (n : Nat) : List Nat := natToLE 8 (n % 2 ^ 64)

/-- The serialization of one file record. -/
def serFile (e : List Nat × FileMeta9) : List Nat :=
  serU32 e.1.length ++ e.1 ++ serU64 e.2.size ++
    serU32 e.2.stripes.length ++ e.2.stripes.flatMap serU64

/-- The non-meta part of the file table (save skips `META_PATH`). -/
def userFiles (st : MetaState9) : List (List Nat × FileMeta9) :=
  st.files.filter (fun e => e.1 ≠ metaPathBytes)

/-- `MetadataManager::save_to_backend` — the byte buffer it builds:
`u32 file_count`, the file records, `u32 dir_count`, the directory
records, each section emitted in the container's current (that is,
implementation-defined) iteration order, here the list order. -/
def save_to_backend (st : MetaState9) : List Nat :=
  serU32 (userFiles st).length ++ (userFiles st).flatMap serFile ++
    serU32 st.dirs.length ++ st.dirs.flatMap (fun d => serU32 d.length ++ d)

/-- `read_u32` — fail when fewer than 4 bytes remain. -/
def readU32 (l : List Nat) : Option (Nat × List Nat) :=
  if 4 ≤ l.length then some (leToNat (l.take 4), l.drop 4) else none

/-- `read_u64` — fail when fewer than 8 bytes remain. -/
def readU64 (l : List Nat) : Option (Nat × List Nat) :=
  if 8 ≤ l.length then some (leToNat (l.take 8), l.drop 8) else none

/-- Raw path bytes (`p + path_len > end` check). -/
def readBytes (n : Nat) (l : List Nat) : Option (List Nat × List Nat) :=
  if n ≤ l.length then some (l.take n, l.drop n) else none

/-- The `for (j...)` stripe loop of the loader. -/
def parseStripes : Nat → List Nat → Option (List Nat × List Nat)
  | 0, l => some ([], l)
  | c + 1, l => do
    let (s, l1) ← readU64 l
    let (rest, l2) ← parseStripes c l1
    pure (s :: rest, l2)

/-- The file-record loop of the loader. -/
def parseFiles : Nat → List Nat → Option (List (List Nat × FileMeta9) × List Nat)
  | 0, l => some ([], l)
  | c + 1, l => do
    let (plen, l1) ← readU32 l
    let (path, l2) ← readBytes plen l1
    let (sz, l3) ← readU64 l2
    let (scount, l4) ← readU32 l3
    let (stripes, l5) ← parseStripes scount l4
    let (rest, l6) ← parseFiles c l5
    pure ((path, ⟨sz, stripes⟩) :: rest, l6)

/-- The directory loop of the loader. -/
def parseDirs : Nat → List Nat → Option (List (List Nat) × List Nat)
  | 0, l => some ([], l)
  | c + 1, l => do
    let (plen, l1) ← readU32 l
    let (path, l2) ← readBytes plen l1
    let (rest, l3) ← parseDirs c l2
    pure (path :: rest, l3)

/-- `MetadataManager::load_from_backend` — the parsing part, applied to
the bytes the file layer returned (an empty buffer makes the load start
empty, and trailing bytes are ignored exactly as in the source).  The
result lists the parsed entries in record order, the order they are
inserted into the rebuilt containers; the order those containers will
later iterate in is not guaranteed to coincide with it. -/
def load_from_backend (data : List Nat) : Option MetaState9 :=
  if data = [] then none
  else do
    let (fc, l1) ← readU32 data
    let (files, l2) ← parseFiles fc l1
    let (dc, l3) ← readU32 l2
    let (dirs, _) ← parseDirs dc l3
    pure ⟨files, dirs⟩

/-- Size/key consistency plus the byte budget of a cache state. -/
def SizeOk {κ : Type} (maxSize : Nat) (st : CState κ) : Prop :=
  st.size = cacheBytes st.entries ∧
  (st.entries.map Prod.fst).Nodup ∧
  st.size ≤ maxSize

/-- Machine-width bounds under which the metadata serializer's `u32`/
`u64` casts do not truncate. -/
def MetaWF (T : MetaState9) : Prop :=
  (userFiles T).length < 2 ^ 32 ∧ T.dirs.length < 2 ^ 32 ∧
  (∀ e ∈ T.files, e.1.length < 2 ^ 32 ∧ e.2.size < 2 ^ 64 ∧
    e.2.stripes.length < 2 ^ 32 ∧ ∀ s ∈ e.2.stripes, s < 2 ^ 64) ∧
  (∀ d ∈ T.dirs, d.length < 2 ^ 32)

/-- A two-file metadata table in record order. -/
def t2 : MetaState9 := ⟨[([97], ⟨1, []⟩), ([98], ⟨2, []⟩)], []⟩

/-- The same two-file container contents in the opposite iteration
order — the order libstdc++ typically produces after the load cycle
inserts the two records. -/
def t2rev : MetaState9 := ⟨[([98], ⟨2, []⟩), ([97], ⟨1, []⟩)], []⟩

/-! ## Helper definitions for the claims -/

/-- The chunk vector `encode` produces when it succeeds (k, m ≥ 1). -/
def encodeChunks (data : List Nat) (k m : Nat) : List (List Nat) :=
  match encBody data k m with
  | [] => []
  | c0 :: rest => (natToLE 8 data.length ++ c0) :: rest

/-- Iterated right multiplication, the `v = gf_mul(v, x)` accumulator
started at `v`. -/
def powFrom (x v : Nat) : Nat → Nat
  | 0 => v
  | j + 1 => powFrom x (gf_mul v x) j

/-- The plaintext of scenario E1/E3: "hello". -/
def helloBytes : List Nat := [0x68, 0x65, 0x6c, 0x6c, 0x6f]

/-- Erase shard `i` of a chunk vector (missing = empty string). -/
def eraseShard (i : Nat) (chunks : List (List Nat)) : List (List Nat) :=
  chunks.set i []

/-- Backend read outcomes for the C6 scenario: backends 0 and 1 deliver
their shards of `encode "ab"`, backend 2 fails its read call (for a
WebDAV/S3 backend a transport error returns `false` exactly like a
missing object). -/
def c6reads : Reads := fun i =>
  if i = 0 then some ((encodeChunks [97, 98] 2 1).getD 0 [])
  else if i = 1 then some ((encodeChunks [97, 98] 2 1).getD 1 [])
  else none

/-- Backend read outcomes for the C5 witness: the shard on backend 1
is missing (NotFound), the other two are served. -/
def c5reads : Reads := fun i =>
  if i = 0 then some ((encodeChunks [97, 98] 2 1).getD 0 [])
  else if i = 2 then some ((encodeChunks [97, 98] 2 1).getD 2 [])
  else none

/-- Fresh file-layer state: no metadata, empty backends, allocator
at 100. -/
def fmInit : FMState := ⟨[], fun _ _ => none, 100⟩

/-- The shards of stripe 100 after E1 writes "hello" at offset 0
(the stripe buffer is the 4 MiB read-modify-write buffer). -/
def e1Chunks : List (List Nat) :=
  encodeChunks (helloBytes ++ List.replicate (STRIPE_SIZE - 5) 0) 2 1

/-- File-layer state after E1. -/
def e1State : FMState :=
  ⟨[("/a", ⟨5, [100]⟩)],
   fun i s => if i < 3 ∧ s = 100 then some (e1Chunks.getD i []) else none,
   101⟩

/-- E3: the shards on backends 1 and 2 are deleted. -/
def e3State : FMState :=
  { e1State with
    store := fun i s =>
      if (i = 1 ∨ i = 2) ∧ s = 100 then none else e1State.store i s }

end CloudRaid


namespace CloudRaid

/-! ## Basic lemmas about the codec -/

theorem natToLE_length (w n : Nat) : (natToLE w n).length = w := by
  induction w generalizing n with
  | zero => rfl
  | succ w ih => simp [natToLE, ih]

theorem encBody_length (data : List Nat) (k m : Nat) :
    (encBody data k m).length = k + m := by
  simp [encBody]

theorem encode_eq_some (data : List Nat) (k m : Nat) (hk : k ≠ 0) (hm : m ≠ 0) :
    encode data k m = some (encodeChunks data k m) := by
  have h1 : (k = 0 || m = 0) = false := by simp [hk, hm]
  unfold encode encodeChunks
  rw [h1]
  cases encBody data k m <;> rfl

theorem encodeChunks_length (data : List Nat) (k m : Nat) (h : k + m ≠ 0) :
    (encodeChunks data k m).length = k + m := by
  have hb := encBody_length data k m
  unfold encodeChunks
  cases hbody : encBody data k m with
  | nil => rw [hbody] at hb; simp at hb; omega
  | cons c0 rest => rw [hbody] at hb; simpa using hb

/-! ## Claims C1 and C2: the codec round trip

`solve_matrix` mutates the coefficient matrix that `decode` builds once
outside its per-byte loop, so every byte offset after the first is
solved against the already-triangularised matrix with an untransformed
right-hand side.  The round trip therefore corrupts every plaintext
whose chunk size is at least 2 (and `decode` fails outright when shard
0 is erased, because the 8-byte header is read before reconstruction).
-/

/-- C2.  `decode (encode d)` with no shard erased, `k = 2`, `m = 1`,
`d = "hello"` (5 bytes, chunk size 3) returns `68 b1 00 6c bb`, not
`d`: the codec round trip of the spec fails on the code as written. -/
theorem C2_roundtrip_broken :
    ((encode helloBytes 2 1).getD []).length = 3 ∧
    decode ((encode helloBytes 2 1).getD []) 2 1 =
      some [0x68, 0xb1, 0x00, 0x6c, 0xbb] ∧
    decode ((encode helloBytes 2 1).getD []) 2 1 ≠ some helloBytes := by
  refine ⟨by decide, by decide, by decide⟩

/-- C1.  Erasing one shard (within the `|F| ≤ m` budget) of
`encode "hello"` with `k = 2`, `m = 1`: erasing shard 1 decodes to
`68 de 00 6c d4` instead of `"hello"`, and erasing shard 0 makes
`decode` fail because the length header is required before
reconstruction. -/
theorem C1_erasure_recovery_broken :
    decode (eraseShard 1 ((encode helloBytes 2 1).getD [])) 2 1 =
      some [0x68, 0xde, 0x00, 0x6c, 0xd4] ∧
    decode (eraseShard 1 ((encode helloBytes 2 1).getD [])) 2 1 ≠ some helloBytes ∧
    decode (eraseShard 0 ((encode helloBytes 2 1).getD [])) 2 1 = none := by
  refine ⟨by decide, by decide, by decide⟩

/-! ## Claim C3: the encoder matrix -/

theorem vandRowAux_getD (x : Nat) :
    ∀ n v j, j < n → (vandRowAux x n v).getD j 0 = powFrom x v j := by
  intro n
  induction n with
  | zero => intro v j h; omega
  | succ n ih =>
    intro v j h
    cases j with
    | zero => rfl
    | succ j => exact ih (gf_mul v x) j (by omega)

theorem powFrom_succ (x : Nat) :
    ∀ j v, powFrom x v (j + 1) = gf_mul (powFrom x v j) x := by
  intro j
  induction j with
  | zero => intro v; rfl
  | succ j ih => intro v; exact ih (gf_mul v x)

theorem powFrom_one (x j : Nat) : powFrom x 1 j = gf_pow x j := by
  induction j with
  | zero => rfl
  | succ j ih => rw [powFrom_succ, ih]; rfl

theorem build_matrix_row (k m r : Nat) (hr : r < k + m) :
    (build_matrix k m).getD r [] = vandRow ((r + 1) % 256) k := by
  unfold build_matrix
  rw [List.getD_eq_getElem?_getD, List.getElem?_map, List.getElem?_range hr]
  rfl

theorem build_matrix_entry (k m r c : Nat) (hr : r < k + m) (hc : c < k) :
    matEntry (build_matrix k m) r c = gf_pow ((r + 1) % 256) c := by
  unfold matEntry
  rw [build_matrix_row k m r hr, vandRow, vandRowAux_getD _ k 1 c hc, powFrom_one]

theorem vandRow_one (k : Nat) : vandRow 1 k = List.replicate k 1 := by
  have hone : gf_mul 1 1 = 1 := by decide
  unfold vandRow
  induction k with
  | zero => rfl
  | succ k ih =>
    show 1 :: vandRowAux 1 k (gf_mul 1 1) = List.replicate (k + 1) 1
    rw [hone, List.replicate_succ, ih]

/-- C3 counterexample.  The first `k` rows of the encoder matrix are
not the identity: for `k = 2`, `m = 1` the matrix is
`[[1,1],[1,2],[1,3]]` (row 0 is all ones, not `1, 0`), and shard 0 of
`encode "AB"` carries `A ⊕ B = 0x03` after its header, not the raw
byte `A`. -/
theorem C3_counterexample :
    (build_matrix 2 1).take 2 ≠ [[1, 0], [0, 1]] ∧
    build_matrix 2 1 = [[1, 1], [1, 2], [1, 3]] ∧
    (((encode [0x41, 0x42] 2 1).getD []).getD 0 []).drop 8 = [0x03] ∧
    [0x03] ≠ [0x41] := by
  refine ⟨by decide, by decide, by decide, by decide⟩

/-- C3 amended.  The encoder matrix is the plain Vandermonde matrix
`M[r][c] = (r+1)^c` in GF(256); its row 0 is the all-ones row `1,1,…`,
so for `k ≥ 2` the first `k` rows are not the identity and the first
`k` shards are field combinations of the data columns rather than raw
plaintext bytes (row 0 equals the identity row only for `k = 1`). -/
theorem C3_amended (k m r c : Nat) (hr : r < k + m) (hc : c < k) (hk : 2 ≤ k) :
    matEntry (build_matrix k m) r c = gf_pow ((r + 1) % 256) c ∧
    (build_matrix k m).getD 0 [] = List.replicate k 1 ∧
    (build_matrix k m).getD 0 [] ≠ 1 :: List.replicate (k - 1) 0 := by
  have h0 : (0 : Nat) < k + m := by omega
  have hrow0 : (build_matrix k m).getD 0 [] = List.replicate k 1 := by
    rw [build_matrix_row k m 0 h0]
    exact vandRow_one k
  refine ⟨build_matrix_entry k m r c hr hc, hrow0, ?_⟩
  rw [hrow0]
  obtain ⟨j, rfl⟩ : ∃ j, k = j + 2 := ⟨k - 2, by omega⟩
  intro h
  simp [List.replicate_succ] at h

/-- Witness for C3 amended at `k = 2`, `m = 1`, `r = 0`, `c = 1`. -/
theorem C3_amended_witness :
    matEntry (build_matrix 2 1) 0 1 = gf_pow ((0 + 1) % 256) 1 ∧
    (build_matrix 2 1).getD 0 [] = List.replicate 2 1 ∧
    (build_matrix 2 1).getD 0 [] ≠ 1 :: List.replicate (2 - 1) 0 :=
  C3_amended 2 1 0 1 (by decide) (by decide) (by decide)

/-! ## Lemmas about the stripe store read/repair path -/

theorem read_chunk_some (k m : Nat) (reads : Reads) (out : List Nat)
    (ws : List (Nat × List Nat)) (h : read_chunk k m reads = some (out, ws)) :
    ws = repair_missing_chunks k m (shardPresent reads) out ∧
    decode (raidChunks reads (k + m)) k m = some out := by
  unfold read_chunk at h
  split at h
  · exact absurd h (by simp)
  · cases hd : decode (raidChunks reads (k + m)) k m with
    | none => rw [hd] at h; exact absurd h (by simp)
    | some o =>
      rw [hd] at h
      simp only [Option.some.injEq, Prod.mk.injEq] at h
      obtain ⟨rfl, rfl⟩ := h
      exact ⟨rfl, rfl⟩

theorem repair_eq_filterMap (k m : Nat) (present : Nat → Bool) (data : List Nat)
    (hk : k ≠ 0) (hm : m ≠ 0) :
    repair_missing_chunks k m present data =
      (List.range (k + m)).filterMap (fun i =>
        if present i then none else some (i, (encodeChunks data k m).getD i [])) := by
  unfold repair_missing_chunks
  rw [encode_eq_some data k m hk hm]
  have hlen : (encodeChunks data k m).length = k + m :=
    encodeChunks_length data k m (by omega)
  simp [hlen]

theorem repair_mem_absent (k m : Nat) (present : Nat → Bool) (data : List Nat)
    (i : Nat) (bytes : List Nat) (hk : k ≠ 0) (hm : m ≠ 0)
    (h : (i, bytes) ∈ repair_missing_chunks k m present data) :
    present i = false ∧ bytes = (encodeChunks data k m).getD i [] ∧ i < k + m := by
  rw [repair_eq_filterMap k m present data hk hm] at h
  obtain ⟨j, hj, hji⟩ := List.mem_filterMap.mp h
  by_cases hp : present j
  · simp [hp] at hji
  · simp only [hp, if_false, Option.some.injEq, Prod.mk.injEq] at hji
    obtain ⟨rfl, rfl⟩ := hji
    exact ⟨by simpa using hp, rfl, List.mem_range.mp hj⟩

theorem repair_covers_absent (k m : Nat) (present : Nat → Bool) (data : List Nat)
    (i : Nat) (hk : k ≠ 0) (hm : m ≠ 0) (hi : i < k + m)
    (hp : present i = false) :
    (i, (encodeChunks data k m).getD i []) ∈
      repair_missing_chunks k m present data := by
  rw [repair_eq_filterMap k m present data hk hm]
  exact List.mem_filterMap.mpr ⟨i, List.mem_range.mpr hi, by simp [hp]⟩

/-- C5.  A successful stripe-store read that found shards absent
repairs exactly the absent positions: every repair write targets an
absent shard and carries the corresponding shard of a fresh encode of
the decoded plaintext, every absent position receives such a write,
and no write ever targets a backend whose shard was present. -/
theorem C5_repair_frame (k m : Nat) (reads : Reads) (out : List Nat)
    (ws : List (Nat × List Nat)) (hk : 1 ≤ k) (hm : 1 ≤ m)
    (h : read_chunk k m reads = some (out, ws)) :
    (∀ i bytes, (i, bytes) ∈ ws →
      shardPresent reads i = false ∧ bytes = (encodeChunks out k m).getD i []) ∧
    (∀ i, i < k + m → shardPresent reads i = false →
      (i, (encodeChunks out k m).getD i []) ∈ ws) ∧
    encode out k m = some (encodeChunks out k m) := by
  obtain ⟨hws, -⟩ := read_chunk_some k m reads out ws h
  subst hws
  refine ⟨?_, ?_, encode_eq_some out k m (by omega) (by omega)⟩
  · intro i bytes hmem
    have := repair_mem_absent k m _ out i bytes (by omega) (by omega) hmem
    exact ⟨this.1, this.2.1⟩
  · intro i hi hp
    exact repair_covers_absent k m _ out i (by omega) (by omega) hi hp

/-- Witness for C5 at `k = 2`, `m = 1` with the shard on backend 1
missing. -/
theorem C5_repair_frame_witness :
    shardPresent c5reads 1 = false ∧
    (1, (encodeChunks [97, 98] 2 1).getD 1 []) ∈ [(1, [165])] := by
  have h := C5_repair_frame 2 1 c5reads [97, 98] [(1, [165])]
    (by decide) (by decide) (by decide)
  exact ⟨(h.1 1 [165] (by decide)).1,
    h.2.1 1 (by decide) (h.1 1 [165] (by decide)).1⟩

/-- C6 counterexample.  Backend 2's read call fails (`false` from the
`bool`-returning `ChunkStore::read_chunk` — for the WebDAV/S3 drivers a
transport error is reported exactly like a missing object); the stripe
still decodes from backends 0 and 1, and the repair task then writes a
shard to backend 2 even though its shard was never observed missing,
contradicting the claim that a transport failure does not trigger a
repair write. -/
theorem C6_counterexample :
    c6reads 2 = none ∧
    read_chunk 2 1 c6reads = some ([97, 98], [(2, [199])]) := by
  refine ⟨rfl, by decide⟩

/-- C6 amended.  The `ChunkStore` contract returns only a `bool`, so
`NotFound` is not distinguishable from an I/O failure; any failed (or
empty) backend read marks the shard absent, and after a successful
decode the repair task writes that shard back. -/
theorem C6_amended (k m i : Nat) (reads : Reads) (out : List Nat)
    (ws : List (Nat × List Nat)) (hk : 1 ≤ k) (hm : 1 ≤ m) (hi : i < k + m)
    (hfail : reads i = none) (h : read_chunk k m reads = some (out, ws)) :
    ∃ bytes, (i, bytes) ∈ ws := by
  obtain ⟨hws, -⟩ := read_chunk_some k m reads out ws h
  subst hws
  have hp : shardPresent reads i = false := by
    unfold shardPresent
    rw [hfail]
  exact ⟨_, repair_covers_absent k m _ out i (by omega) (by omega) hi hp⟩

/-- Witness for C6 amended on the concrete transport-failure read. -/
theorem C6_amended_witness : ∃ bytes, (2, bytes) ∈ [(2, [199])] :=
  C6_amended 2 1 2 c6reads [97, 98] [(2, [199])]
    (by decide) (by decide) (by decide) rfl (by decide)

/-! ## Claim C10: liveness test and the empty stripe -/

theorem chunkSize_nil (k : Nat) (hk : k ≠ 0) : chunkSize 0 k = 0 := by
  unfold chunkSize
  exact Nat.div_eq_of_lt (by omega)

theorem encBody_nil (k m : Nat) (hk : k ≠ 0) :
    encBody [] k m = List.replicate (k + m) [] := by
  unfold encBody
  rw [List.length_nil, chunkSize_nil k hk]
  simp

theorem encode_nil (k m : Nat) (hk : k ≠ 0) (hm : m ≠ 0) :
    encode [] k m = some (natToLE 8 0 :: List.replicate (k + m - 1) []) := by
  rw [encode_eq_some [] k m hk hm]
  unfold encodeChunks
  rw [encBody_nil k m hk]
  obtain ⟨t, ht⟩ : ∃ t, k + m = t + 1 := ⟨k + m - 1, by omega⟩
  rw [ht, List.replicate_succ]
  simp [ht]

theorem getD_replicate_nil (n j : Nat) :
    (List.replicate n ([] : List Nat)).getD j [] = [] := by
  induction n generalizing j with
  | zero => rfl
  | succ n ih =>
    cases j with
    | zero => rfl
    | succ j => exact ih j

theorem natToLE_ne_nil (n : Nat) : natToLE 8 n ≠ [] := by
  intro h
  have := natToLE_length 8 n
  rw [h] at this
  simp at this

/-- C10.  The stripe store counts a shard as live exactly when the
backend read succeeded and returned a non-empty payload; consequently a
stripe written from the empty plaintext (whose shards 1..k+m-1 are
empty strings) can be written successfully but never read back when
`k ≥ 2`: the follow-up read fails with fewer than `k` live shards. -/
theorem C10_empty_stripe_unreadable (k m stripe : Nat) (st : Store)
    (hk : 2 ≤ k) (hm : 1 ≤ m) :
    (∀ (reads : Reads) i, shardPresent reads i = true ↔
      ∃ buf, reads i = some buf ∧ buf ≠ []) ∧
    ∃ st2, write_chunk k m stripe [] st = some st2 ∧
      read_chunk k m (storeReads st2 stripe) = none := by
  constructor
  · intro reads i
    unfold shardPresent
    cases h : reads i with
    | none => simp
    | some buf => cases buf <;> simp
  · have hk0 : k ≠ 0 := by omega
    have hm0 : m ≠ 0 := by omega
    have henc := encode_nil k m hk0 hm0
    set chunks := natToLE 8 0 :: List.replicate (k + m - 1) [] with hchunks
    have hlen : chunks.length = k + m := by
      simp [hchunks]
      omega
    have hw : write_chunk k m stripe [] st =
        some (fun i s =>
          if i < k + m ∧ s = stripe then some (chunks.getD i []) else st i s) := by
      unfold write_chunk
      rw [henc]
      simp [hlen]
    refine ⟨_, hw, ?_⟩
    set st2 : Store := fun i s =>
      if i < k + m ∧ s = stripe then some (chunks.getD i []) else st i s with hst2
    have hpres : ∀ i, i < k + m →
        shardPresent (storeReads st2 stripe) i = decide (i = 0) := by
      intro i hi
      have hread : storeReads st2 stripe i = some (chunks.getD i []) := by
        rw [hst2]
        simp [storeReads, hi]
      unfold shardPresent
      rw [hread]
      cases i with
      | zero =>
        have h0 : chunks.getD 0 [] = natToLE 8 0 := rfl
        rw [h0]
        cases h8 : natToLE 8 0 with
        | nil => exact absurd h8 (natToLE_ne_nil 0)
        | cons a l => simp
      | succ j =>
        have hj : chunks.getD (j + 1) [] = [] := by
          show (List.replicate (k + m - 1) ([] : List Nat)).getD j [] = []
          exact getD_replicate_nil _ _
        rw [hj]
        simp
    have hcount : okCount (storeReads st2 stripe) (k + m) = 1 := by
      unfold okCount
      have hfc : (List.range (k + m)).filter
            (fun i => shardPresent (storeReads st2 stripe) i) =
          (List.range (k + m)).filter (fun i => decide (i = 0)) := by
        apply List.filter_congr
        intro i hi
        exact hpres i (List.mem_range.mp hi)
      rw [hfc]
      obtain ⟨t, ht⟩ : ∃ t, k + m = t + 1 := ⟨k + m - 1, by omega⟩
      rw [ht, List.range_succ_eq_map]
      rw [List.filter_cons_of_pos (by simp)]
      have hmap : List.filter (fun i => decide (i = 0)) ((List.range t).map Nat.succ) = [] := by
        rw [List.filter_map]
        have hcomp : List.filter ((fun i => decide (i = 0)) ∘ Nat.succ) (List.range t) = [] := by
          apply List.filter_eq_nil_iff.mpr
          intro j hj
          simp
        rw [hcomp]
        rfl
      rw [hmap]
      rfl
    unfold read_chunk
    rw [hcount]
    exact if_pos (by omega)

/-- Witness for C10 at `k = 2`, `m = 1`, stripe 7, empty backends. -/
theorem C10_witness :
    (∀ (reads : Reads) i, shardPresent reads i = true ↔
      ∃ buf, reads i = some buf ∧ buf ≠ []) ∧
    ∃ st2, write_chunk 2 1 7 [] (fun _ _ => none) = some st2 ∧
      read_chunk 2 1 (storeReads st2 7) = none :=
  C10_empty_stripe_unreadable 2 1 7 (fun _ _ => none) (by decide) (by decide)


/-! ## Claim C8: the upload queue admission bound -/

/-- C8 counterexample.  With `max_queue_size = 1`, `k = m = 1` and an
empty queue, one accepted `async_write_stripe` call enqueues `k+m = 2`
shard tasks, so the queue length reaches 2 > `max_queue_size`: the
bound is checked only at admission and the claimed "at most
max_queue_size tasks at all times" invariant is false. -/
theorem C8_counterexample :
    (async_write_stripe 1 1 1 5 [] (fun _ => true) UploaderState.init).1 = true ∧
    (async_write_stripe 1 1 1 5 [] (fun _ => true) UploaderState.init).2.queue.length = 2 ∧
    ¬((async_write_stripe 1 1 1 5 [] (fun _ => true) UploaderState.init).2.queue.length ≤ 1) := by
  refine ⟨by decide, by decide, by decide⟩

/-- C8 amended.  `async_write_stripe` rejects (reporting failure,
without enqueuing) exactly when it observes `queue.size() >=
max_queue_size`; an accepted call appends exactly `k+m` shard tasks in
FIFO order after all spool writes succeeded, so the queue length after
an accepted call is its admission length plus `k+m`, which can exceed
`max_queue_size` by up to `k+m-1`. -/
theorem C8_amended (mqs k m stripe : Nat) (data : List Nat)
    (saveOk : Nat → Bool) (st : UploaderState) :
    (st.queue.length ≥ mqs →
      async_write_stripe mqs k m stripe data saveOk st = (false, st)) ∧
    (∀ st2, async_write_stripe mqs k m stripe data saveOk st = (true, st2) →
      st.queue.length < mqs ∧
      (∀ i, i < k + m → saveOk i = true) ∧
      st2.queue = st.queue ++ (List.range (k + m)).map
        (fun i => { stripe := stripe, chunkIndex := i }) ∧
      st2.queue.length = st.queue.length + (k + m) ∧
      st2.queue.length ≤ mqs - 1 + (k + m)) := by
  unfold async_write_stripe
  by_cases hq : st.queue.length ≥ mqs
  · rw [if_pos hq]
    refine ⟨fun _ => rfl, ?_⟩
    intro st2 h
    simp at h
  · rw [if_neg hq]
    refine ⟨fun hq2 => absurd hq2 hq, ?_⟩
    intro st2 h
    cases henc : encode data k m with
    | none => rw [henc] at h; simp at h
    | some chunks =>
      rw [henc] at h
      dsimp only at h
      by_cases hlen : chunks.length ≠ k + m
      · rw [if_pos hlen] at h; simp at h
      · rw [if_neg hlen] at h
        by_cases hall : (List.range (k + m)).all saveOk
        · rw [if_pos hall] at h
          simp only [Prod.mk.injEq] at h
          obtain ⟨-, rfl⟩ := h
          have hsave : ∀ i, i < k + m → saveOk i = true := by
            intro i hi
            exact List.all_eq_true.mp hall i (List.mem_range.mpr hi)
          refine ⟨by omega, hsave, rfl, ?_, ?_⟩
          · simp
          · simp
            omega
        · rw [if_neg hall] at h; simp at h

/-- Witness for C8 amended: one accepted call on an empty queue with
`max_queue_size = 10`, `k = m = 1`. -/
theorem C8_amended_witness :
    (async_write_stripe 10 1 1 3 [7] (fun _ => true) UploaderState.init).2.queue.length =
      UploaderState.init.queue.length + (1 + 1) := by
  have h := (C8_amended 10 1 1 3 [7] (fun _ => true) UploaderState.init).2
    (async_write_stripe 10 1 1 3 [7] (fun _ => true) UploaderState.init).2 (by decide)
  exact h.2.2.2.1


/-! ## Claim C7: cache capacity invariant -/

section CacheLemmas

variable {κ : Type} [DecidableEq κ] {σ : Type} [LinearOrder σ]

theorem remove_size (id : κ) (l : List (κ × CEntry)) (e : κ × CEntry)
    (hfind : l.find? (fun x => x.1 = id) = some e)
    (hnd : (l.map Prod.fst).Nodup) :
    cacheBytes (l.filter (fun x => x.1 ≠ id)) + e.2.data.length = cacheBytes l := by
  induction l with
  | nil => simp at hfind
  | cons a l ih =>
    by_cases ha : a.1 = id
    · rw [List.find?_cons_of_pos _ (by simp [ha])] at hfind
      injection hfind with hfind
      subst hfind
      have hnotin : ∀ x ∈ l, x.1 ≠ id := by
        intro x hx hxid
        have hmem : a.1 ∈ l.map Prod.fst := by
          rw [ha, ← hxid] at *
          exact List.mem_map_of_mem Prod.fst hx
        exact (List.nodup_cons.mp hnd).1 hmem
      rw [List.filter_cons_of_neg (by simp [ha])]
      rw [List.filter_eq_self.mpr (by intro x hx; simpa using hnotin x hx)]
      simp [cacheBytes, Nat.add_comm]
    · rw [List.find?_cons_of_neg _ (by simp [ha])] at hfind
      rw [List.filter_cons_of_pos (by simp [ha])]
      have := ih hfind (List.nodup_cons.mp hnd).2
      simp only [cacheBytes, List.map_cons, List.sum_cons] at this ⊢
      omega

theorem remove_entry_entries_sublist (id : κ) (st : CState κ) :
    (remove_entry id st).entries.Sublist st.entries := by
  unfold remove_entry
  cases st.entries.find? (fun x => x.1 = id) with
  | none => exact List.Sublist.refl _
  | some e => exact List.filter_sublist _

theorem remove_entry_sizeOk (maxSize : Nat) (id : κ) (st : CState κ)
    (h : SizeOk maxSize st) : SizeOk maxSize (remove_entry id st) := by
  obtain ⟨hsz, hnd, hle⟩ := h
  unfold remove_entry
  cases hf : st.entries.find? (fun x => x.1 = id) with
  | none => exact ⟨hsz, hnd, hle⟩
  | some e =>
    have hrs := remove_size id st.entries e hf hnd
    refine ⟨?_, ?_, ?_⟩
    · show st.size - e.2.data.length = cacheBytes (st.entries.filter (fun x => x.1 ≠ id))
      omega
    · have hsub : ((st.entries.filter (fun x => x.1 ≠ id)).map Prod.fst).Sublist
          (st.entries.map Prod.fst) := (List.filter_sublist _).map Prod.fst
      exact hnd.sublist hsub
    · show st.size - e.2.data.length ≤ maxSize
      omega

theorem remove_entry_key_not_mem (id : κ) (st : CState κ) :
    ∀ e ∈ (remove_entry id st).entries, e.1 ≠ id := by
  unfold remove_entry
  cases hf : st.entries.find? (fun x => x.1 = id) with
  | none =>
    intro e he
    have := List.find?_eq_none.mp hf e he
    simpa using this
  | some e0 =>
    intro e he
    have := List.of_mem_filter he
    simpa using this

theorem foldRemove_sizeOk (maxSize : Nat) (ids : List κ) :
    ∀ st : CState κ, SizeOk maxSize st →
      SizeOk maxSize (ids.foldl (fun s id => remove_entry id s) st) := by
  induction ids with
  | nil => intro st h; exact h
  | cons a ids ih =>
    intro st h
    exact ih _ (remove_entry_sizeOk maxSize a st h)

theorem foldRemove_sublist (ids : List κ) :
    ∀ st : CState κ,
      ((ids.foldl (fun s id => remove_entry id s) st).entries).Sublist st.entries := by
  induction ids with
  | nil => intro st; exact List.Sublist.refl _
  | cons a ids ih =>
    intro st
    exact (ih _).trans (remove_entry_entries_sublist a st)

theorem purgeExpired_sizeOk (maxSize now : Nat) (st : CState κ)
    (h : SizeOk maxSize st) : SizeOk maxSize (purgeExpired now st) :=
  foldRemove_sizeOk maxSize _ st h

theorem purgeExpired_sublist (now : Nat) (st : CState κ) :
    (purgeExpired now st).entries.Sublist st.entries :=
  foldRemove_sublist _ st

theorem evictFold_sizeOk (heat : CEntry → Nat → σ) (maxSize need : Nat)
    (scored : List (κ × σ)) :
    ∀ st : CState κ, SizeOk maxSize st →
      SizeOk maxSize (scored.foldl
        (fun s p => if s.size + need ≤ maxSize then s else remove_entry p.1 s) st) := by
  induction scored with
  | nil => intro st h; exact h
  | cons a scored ih =>
    intro st h
    by_cases hc : st.size + need ≤ maxSize
    · simpa [hc] using ih st h
    · simpa [hc] using ih _ (remove_entry_sizeOk maxSize a.1 st h)

theorem evictFold_sublist (maxSize need : Nat) (scored : List (κ × σ)) :
    ∀ st : CState κ,
      ((scored.foldl
        (fun s p => if s.size + need ≤ maxSize then s else remove_entry p.1 s) st).entries).Sublist
        st.entries := by
  induction scored with
  | nil => intro st; exact List.Sublist.refl _
  | cons a scored ih =>
    intro st
    by_cases hc : st.size + need ≤ maxSize
    · simpa [hc] using ih st
    · have h1 := ih (remove_entry a.1 st)
      have h2 := remove_entry_entries_sublist a.1 st
      simpa [hc] using h1.trans h2

theorem make_room_spec (heat : CEntry → Nat → σ) (maxSize need now : Nat)
    (st : CState κ) (h : SizeOk maxSize st) :
    SizeOk maxSize (make_room heat maxSize need now st).1 ∧
    ((make_room heat maxSize need now st).2 = true →
      (make_room heat maxSize need now st).1.size + need ≤ maxSize) ∧
    (make_room heat maxSize need now st).1.entries.Sublist st.entries := by
  unfold make_room
  by_cases h1 : need > maxSize
  · rw [if_pos h1]
    exact ⟨h, by simp, List.Sublist.refl _⟩
  · rw [if_neg h1]
    have hp := purgeExpired_sizeOk maxSize now st h
    by_cases h2 : (purgeExpired now st).size + need ≤ maxSize
    · rw [if_pos h2]
      exact ⟨hp, fun _ => h2, purgeExpired_sublist now st⟩
    · rw [if_neg h2]
      refine ⟨evictFold_sizeOk heat maxSize need _ _ hp, ?_, ?_⟩
      · intro hd
        exact of_decide_eq_true hd
      · exact (evictFold_sublist maxSize need _ _).trans (purgeExpired_sublist now st)

theorem cachePut_st1_eq (heat : CEntry → Nat → σ) (maxSize ttl : Nat) (id : κ)
    (data : List Nat) (now : Nat) (st : CState κ) :
    cachePut heat maxSize ttl id data now st =
      (if (make_room heat maxSize data.length now (remove_entry id st)).2 then
        { (make_room heat maxSize data.length now (remove_entry id st)).1 with
          entries := (make_room heat maxSize data.length now (remove_entry id st)).1.entries ++
            [(id, ⟨data, now + ttl, 1⟩)]
          size := (make_room heat maxSize data.length now (remove_entry id st)).1.size + data.length
          lru := id :: (make_room heat maxSize data.length now (remove_entry id st)).1.lru }
      else (make_room heat maxSize data.length now (remove_entry id st)).1) := by
  unfold cachePut remove_entry
  cases st.entries.find? (fun x => x.1 = id) <;> rfl

theorem cachePut_sizeOk (heat : CEntry → Nat → σ) (maxSize ttl : Nat) (id : κ)
    (data : List Nat) (now : Nat) (st : CState κ) (h : SizeOk maxSize st) :
    SizeOk maxSize (cachePut heat maxSize ttl id data now st) := by
  rw [cachePut_st1_eq]
  have h1 := remove_entry_sizeOk maxSize id st h
  have hmr := make_room_spec heat maxSize data.length now (remove_entry id st) h1
  by_cases hfit : (make_room heat maxSize data.length now (remove_entry id st)).2
  · simp only [hfit, if_pos]
    obtain ⟨⟨hsz, hnd, -⟩, hbound, hsub⟩ := hmr
    have hid : ∀ e ∈ (make_room heat maxSize data.length now
        (remove_entry id st)).1.entries, e.1 ≠ id := by
      intro e he
      exact remove_entry_key_not_mem id st e (hsub.subset he)
    refine ⟨?_, ?_, ?_⟩
    · simp [cacheBytes, hsz]
    · simp only [List.map_append]
      rw [List.nodup_append]
      refine ⟨hnd, by simp, ?_⟩
      intro a ha hb
      simp at hb
      obtain ⟨e, he, rfl⟩ := List.mem_map.mp ha
      exact hid e he hb
    · have := hbound hfit
      simpa using this
  · simp only [Bool.not_eq_true] at hfit
    simp only [hfit, Bool.false_eq_true, if_neg, not_false_iff]
    exact hmr.1

theorem cacheGet_sizeOk (maxSize ttl : Nat) (id : κ) (now : Nat) (st : CState κ)
    (h : SizeOk maxSize st) : SizeOk maxSize (cacheGet ttl id now st).2 := by
  unfold cacheGet
  cases hf : st.entries.find? (fun x => x.1 = id) with
  | none => exact ⟨h.1, h.2.1, h.2.2⟩
  | some e =>
    by_cases hexp : now > e.2.expire
    · simp only [hexp, if_pos]
      have := remove_entry_sizeOk maxSize id st h
      exact ⟨this.1, this.2.1, this.2.2⟩
    · simp only [hexp, if_neg, not_false_iff]
      obtain ⟨hsz, hnd, hle⟩ := h
      have hbytes : cacheBytes (st.entries.map (fun x =>
          if x.1 = id then (id, { x.2 with expire := now + ttl, access := x.2.access + 1 }) else x)) =
          cacheBytes st.entries := by
        unfold cacheBytes
        rw [List.map_map]
        congr 1
        apply List.map_congr_left
        intro x hx
        by_cases hxid : x.1 = id <;> simp [hxid]
      have hkeys : (st.entries.map (fun x =>
          if x.1 = id then (id, { x.2 with expire := now + ttl, access := x.2.access + 1 }) else x)).map Prod.fst =
          st.entries.map Prod.fst := by
        rw [List.map_map]
        apply List.map_congr_left
        intro x hx
        by_cases hxid : x.1 = id <;> simp [hxid]
      exact ⟨by simpa [hbytes] using hsz, by simpa [hkeys] using hnd, hle⟩

theorem cachePut_oversized (heat : CEntry → Nat → σ) (maxSize ttl : Nat) (id : κ)
    (data : List Nat) (now : Nat) (st : CState κ) (hbig : data.length > maxSize) :
    (cachePut heat maxSize ttl id data now st).entries.find? (fun e => e.1 = id) = none := by
  rw [cachePut_st1_eq]
  have hmr : make_room heat maxSize data.length now (remove_entry id st) =
      (remove_entry id st, false) := by
    unfold make_room
    rw [if_pos hbig]
  rw [hmr]
  simp only [Bool.false_eq_true, if_neg, not_false_iff]
  exact List.find?_eq_none.mpr (by
    intro e he
    simpa using remove_entry_key_not_mem id st e he)

end CacheLemmas

theorem chunkCacheRun_sizeOk (cfg : CConfig) (ops : List (CacheOp Nat)) :
    ∀ st, SizeOk cfg.max_cache_size st →
      SizeOk cfg.max_cache_size (ops.foldl (ChunkCache.step cfg) st) := by
  induction ops with
  | nil => intro st h; exact h
  | cons op ops ih =>
    intro st h
    refine ih _ ?_
    cases op with
    | put id data now => exact cachePut_sizeOk chunkHeat _ _ id data now st h
    | get id now => exact cacheGet_sizeOk _ _ id now st h
    | invalidate id => exact remove_entry_sizeOk _ id st h
    | cleanup now => exact purgeExpired_sizeOk _ now st h

theorem fileCacheRun_sizeOk (cfg : CConfig) (ops : List (CacheOp String)) :
    ∀ st, SizeOk cfg.max_cache_size st →
      SizeOk cfg.max_cache_size (ops.foldl (FileCache.step cfg) st) := by
  induction ops with
  | nil => intro st h; exact h
  | cons op ops ih =>
    intro st h
    refine ih _ ?_
    cases op with
    | put id data now =>
      show SizeOk cfg.max_cache_size (FileCache.put cfg id data now st)
      unfold FileCache.put
      by_cases hbig : data.length > cfg.max_file_size
      · rw [if_pos hbig]; exact h
      · rw [if_neg hbig]; exact cachePut_sizeOk fileHeat _ _ id data now st h
    | get id now => exact cacheGet_sizeOk _ _ id now st h
    | invalidate id => exact remove_entry_sizeOk _ id st h
    | cleanup now => exact purgeExpired_sizeOk _ now st h

/-- C7.  For every operation sequence against a fresh cache (stripe
cache or file cache), the total cached bytes stay within
`max_cache_size`; a put whose payload exceeds `max_cache_size` never
inserts its entry (the stripe cache ends that put with no entry under
the key, the file cache additionally refuses anything above
`max_file_size` untouched); `make_room` first purges expired entries
and then evicts in ascending heat order until the new entry fits, so
the bound is an invariant after every operation. -/
theorem C7_cache_capacity (cfg : CConfig) (ops : List (CacheOp Nat))
    (fops : List (CacheOp String)) (id : Nat) (fid : String) (data : List Nat)
    (now : Nat) (st : CState Nat) (fst2 : CState String) :
    cacheBytes (ChunkCache.run cfg ops).entries ≤ cfg.max_cache_size ∧
    cacheBytes (FileCache.run cfg fops).entries ≤ cfg.max_cache_size ∧
    (data.length > cfg.max_cache_size →
      (ChunkCache.put cfg id data now st).entries.find? (fun e => e.1 = id) = none) ∧
    (data.length > cfg.max_file_size →
      FileCache.put cfg fid data now fst2 = fst2) := by
  have hinit : SizeOk (κ := Nat) cfg.max_cache_size cinit := by
    refine ⟨rfl, by simp [cinit], by simp [cinit]⟩
  have hinitS : SizeOk (κ := String) cfg.max_cache_size cinit := by
    refine ⟨rfl, by simp [cinit], by simp [cinit]⟩
  have h1 := chunkCacheRun_sizeOk cfg ops cinit hinit
  have h2 := fileCacheRun_sizeOk cfg fops cinit hinitS
  refine ⟨?_, ?_, ?_, ?_⟩
  · have := h1.2.2
    rw [h1.1] at this
    exact this
  · have := h2.2.2
    rw [h2.1] at this
    exact this
  · intro hbig
    exact cachePut_oversized chunkHeat _ _ id data now st hbig
  · intro hbig
    unfold FileCache.put
    rw [if_pos hbig]

/-- Witness for C7: three operations against a 4-byte stripe cache and
an oversized file-cache put. -/
theorem C7_cache_capacity_witness :
    cacheBytes (ChunkCache.run ⟨4, 2, 10⟩
      [CacheOp.put 1 [9, 9, 9] 0, CacheOp.put 2 [8, 8] 1, CacheOp.get 1 2]).entries ≤ 4 ∧
    (ChunkCache.put ⟨4, 2, 10⟩ 5 [7, 7, 7, 7, 7] 0 cinit).entries.find?
      (fun e => e.1 = 5) = none ∧
    FileCache.put ⟨4, 2, 10⟩ "p" [7, 7, 7] 0 cinit = cinit := by
  have h := C7_cache_capacity ⟨4, 2, 10⟩
    [CacheOp.put 1 [9, 9, 9] 0, CacheOp.put 2 [8, 8] 1, CacheOp.get 1 2]
    [] 5 "p" [7, 7, 7, 7, 7] 0 cinit cinit
  have h2 := C7_cache_capacity ⟨4, 2, 10⟩ [] [] 5 "p" [7, 7, 7] 0 cinit cinit
  exact ⟨h.1, h.2.2.1 (by decide), h2.2.2.2 (by decide)⟩


/-! ## Claim C9: metadata serialization round trip -/

theorem leToNat_natToLE (w n : Nat) : leToNat (natToLE w n) = n % 256 ^ w := by
  induction w generalizing n with
  | zero => simp [natToLE, leToNat, Nat.mod_one]
  | succ w ih =>
    show n % 256 + 256 * leToNat (natToLE w (n / 256)) = n % 256 ^ (w + 1)
    rw [ih]
    rw [pow_succ, mul_comm (256 ^ w) 256, Nat.mod_mul]

theorem serU32_length (n : Nat) : (serU32 n).length = 4 := natToLE_length 4 _

theorem serU64_length (n : Nat) : (serU64 n).length = 8 := natToLE_length 8 _

theorem readU32_ser (n : Nat) (rest : List Nat) (h : n < 2 ^ 32) :
    readU32 (serU32 n ++ rest) = some (n, rest) := by
  unfold readU32
  rw [if_pos (by simp [serU32_length])]
  rw [List.take_left' (serU32_length n), List.drop_left' (serU32_length n)]
  unfold serU32
  rw [leToNat_natToLE]
  have h1 : n % 2 ^ 32 = n := Nat.mod_eq_of_lt h
  have h2 : (256 : Nat) ^ 4 = 2 ^ 32 := by norm_num
  rw [h1, h2, h1]

theorem readU64_ser (n : Nat) (rest : List Nat) (h : n < 2 ^ 64) :
    readU64 (serU64 n ++ rest) = some (n, rest) := by
  unfold readU64
  rw [if_pos (by simp [serU64_length])]
  rw [List.take_left' (serU64_length n), List.drop_left' (serU64_length n)]
  unfold serU64
  rw [leToNat_natToLE]
  have h1 : n % 2 ^ 64 = n := Nat.mod_eq_of_lt h
  have h2 : (256 : Nat) ^ 8 = 2 ^ 64 := by norm_num
  rw [h1, h2, h1]

theorem readBytes_ser (p rest : List Nat) :
    readBytes p.length (p ++ rest) = some (p, rest) := by
  unfold readBytes
  rw [if_pos (by simp)]
  rw [List.take_left, List.drop_left]

theorem parseStripes_ser (stripes : List Nat) :
    ∀ rest : List Nat, (∀ s ∈ stripes, s < 2 ^ 64) →
      parseStripes stripes.length (stripes.flatMap serU64 ++ rest) =
        some (stripes, rest) := by
  induction stripes with
  | nil => intro rest h; simp [parseStripes]
  | cons a l ih =>
    intro rest h
    have ha : a < 2 ^ 64 := h a (by simp)
    show parseStripes (l.length + 1) ((a :: l).flatMap serU64 ++ rest) = _
    rw [List.flatMap_cons, List.append_assoc]
    unfold parseStripes
    rw [readU64_ser a _ ha]
    simp only [Option.bind_eq_bind, Option.some_bind]
    rw [ih rest (fun s hs => h s (by simp [hs]))]
    rfl

theorem parseFiles_ser (files : List (List Nat × FileMeta9)) :
    ∀ rest : List Nat,
      (∀ e ∈ files, e.1.length < 2 ^ 32 ∧ e.2.size < 2 ^ 64 ∧
        e.2.stripes.length < 2 ^ 32 ∧ ∀ s ∈ e.2.stripes, s < 2 ^ 64) →
      parseFiles files.length (files.flatMap serFile ++ rest) =
        some (files, rest) := by
  induction files with
  | nil => intro rest h; simp [parseFiles]
  | cons e l ih =>
    intro rest h
    obtain ⟨hplen, hsz, hscount, hstr⟩ := h e (by simp)
    show parseFiles (l.length + 1) ((e :: l).flatMap serFile ++ rest) = _
    rw [List.flatMap_cons, List.append_assoc]
    have hser : serFile e ++ (l.flatMap serFile ++ rest) =
        serU32 e.1.length ++ (e.1 ++ (serU64 e.2.size ++ (serU32 e.2.stripes.length ++
          (e.2.stripes.flatMap serU64 ++ (l.flatMap serFile ++ rest))))) := by
      simp [serFile, List.append_assoc]
    rw [hser]
    unfold parseFiles
    rw [readU32_ser _ _ hplen]
    simp only [Option.bind_eq_bind, Option.some_bind]
    rw [readBytes_ser]
    simp only [Option.some_bind]
    rw [readU64_ser _ _ hsz]
    simp only [Option.some_bind]
    rw [readU32_ser _ _ hscount]
    simp only [Option.some_bind]
    rw [parseStripes_ser _ _ hstr]
    simp only [Option.some_bind]
    rw [ih rest (fun x hx => h x (by simp [hx]))]
    rfl

theorem parseDirs_ser (dirs : List (List Nat)) :
    ∀ rest : List Nat, (∀ d ∈ dirs, d.length < 2 ^ 32) →
      parseDirs dirs.length
          (dirs.flatMap (fun d => serU32 d.length ++ d) ++ rest) =
        some (dirs, rest) := by
  induction dirs with
  | nil => intro rest h; simp [parseDirs]
  | cons d l ih =>
    intro rest h
    show parseDirs (l.length + 1) ((d :: l).flatMap _ ++ rest) = _
    rw [List.flatMap_cons]
    unfold parseDirs
    simp only [List.append_assoc]
    rw [readU32_ser _ _ (h d (by simp))]
    simp only [Option.bind_eq_bind, Option.some_bind]
    rw [readBytes_ser]
    simp only [Option.some_bind]
    rw [ih rest (fun x hx => h x (by simp [hx]))]
    rfl

theorem save_ne_nil (T : MetaState9) : save_to_backend T ≠ [] := by
  unfold save_to_backend
  intro h
  have : (serU32 (userFiles T).length).length = 4 := serU32_length _
  rw [show serU32 (userFiles T).length ++ (userFiles T).flatMap serFile ++
      serU32 T.dirs.length ++ T.dirs.flatMap (fun d => serU32 d.length ++ d) =
      serU32 (userFiles T).length ++ ((userFiles T).flatMap serFile ++
      (serU32 T.dirs.length ++ T.dirs.flatMap (fun d => serU32 d.length ++ d))) from by
    simp [List.append_assoc]] at h
  rcases List.append_eq_nil.mp h with ⟨h1, -⟩
  rw [h1] at this
  simp at this

/-- The record-order case of the metadata round trip: loading bytes
produced by `save` rebuilds exactly the serialized file table and
directory set in record order, and a re-save that iterates in that
same record order reproduces the identical byte string. -/
theorem metadata_roundtrip_ordered (T : MetaState9) (hwf : MetaWF T)
    (hnometa : ∀ e ∈ T.files, e.1 ≠ metaPathBytes) :
    load_from_backend (save_to_backend T) = some ⟨T.files, T.dirs⟩ ∧
    (load_from_backend (save_to_backend T)).map save_to_backend =
      some (save_to_backend T) := by
  obtain ⟨hfc, hdc, hfe, hde⟩ := hwf
  have huser : userFiles T = T.files := by
    unfold userFiles
    exact List.filter_eq_self.mpr (by
      intro e he
      simpa using hnometa e he)
  have hload : load_from_backend (save_to_backend T) = some ⟨T.files, T.dirs⟩ := by
    unfold load_from_backend
    rw [if_neg (save_ne_nil T)]
    unfold save_to_backend
    rw [huser]
    have hassoc : serU32 T.files.length ++ T.files.flatMap serFile ++
        serU32 T.dirs.length ++ T.dirs.flatMap (fun d => serU32 d.length ++ d) =
        serU32 T.files.length ++ (T.files.flatMap serFile ++ (serU32 T.dirs.length ++
          T.dirs.flatMap (fun d => serU32 d.length ++ d))) := by
      simp [List.append_assoc]
    rw [hassoc]
    rw [readU32_ser _ _ (huser ▸ hfc)]
    simp only [Option.bind_eq_bind, Option.some_bind]
    rw [parseFiles_ser _ _ hfe]
    simp only [Option.some_bind]
    rw [readU32_ser _ _ hdc]
    simp only [Option.some_bind]
    rw [← List.append_nil (T.dirs.flatMap (fun d => serU32 d.length ++ d))]
    rw [parseDirs_ser _ _ hde]
    rfl
  refine ⟨hload, ?_⟩
  rw [hload]
  rfl

/-- C9 counterexample.  `t2rev` holds exactly the same
`unordered_map` contents that loading `save t2` rebuilds (a
permutation of the parsed records), in the iteration order libstdc++
typically produces after those insertions; serializing it yields a
byte string different from `save t2`.  The byte-identity clause
`save(load(bytes)) == bytes` therefore depends on the rebuilt
container happening to iterate in record order, which the program does
not guarantee: it is not a property of the code. -/
theorem C9_counterexample :
    load_from_backend (save_to_backend t2) = some t2 ∧
    t2rev.files.Perm t2.files ∧ t2rev.dirs.Perm t2.dirs ∧
    save_to_backend t2rev ≠ save_to_backend t2 := by
  refine ⟨by decide, by decide, by decide, by decide⟩

/-- C9 amended.  Under the claimed binary layout (`u32 file_count`,
per-file `u32 path_len, path, u64 size, u32 stripe_count, u64
stripes`, then `u32 dir_count`, per-directory `u32 path_len, path`),
loading bytes produced by `save` rebuilds exactly the serialized file
table and directory set, so the in-memory tables are identical as
container contents across a save/load cycle; re-saving from any
implementation-defined iteration order of the rebuilt containers (any
permutation `T'` of the tables) emits the same `file_count` and
`dir_count` and the same multiset of file and directory records,
merely possibly reordered within each section — the byte string is
reproduced identically exactly in the record-order case. -/
theorem C9_amended (T T' : MetaState9) (hwf : MetaWF T)
    (hnometa : ∀ e ∈ T.files, e.1 ≠ metaPathBytes)
    (hfp : T'.files.Perm T.files) (hdp : T'.dirs.Perm T.dirs) :
    load_from_backend (save_to_backend T) = some ⟨T.files, T.dirs⟩ ∧
    (userFiles T').length = (userFiles T).length ∧
    T'.dirs.length = T.dirs.length ∧
    ((userFiles T').map serFile).Perm ((userFiles T).map serFile) ∧
    ((T'.dirs.map (fun d => serU32 d.length ++ d)).Perm
      (T.dirs.map (fun d => serU32 d.length ++ d))) ∧
    (load_from_backend (save_to_backend T)).map save_to_backend =
      some (save_to_backend T) := by
  have h := metadata_roundtrip_ordered T hwf hnometa
  have hfilt : (userFiles T').Perm (userFiles T) := hfp.filter _
  exact ⟨h.1, hfilt.length_eq, hdp.length_eq, hfilt.map _, hdp.map _, h.2⟩

/-- Witness for C9 amended: the two-file table `t2` reloaded and
re-iterated in the reversed order `t2rev`. -/
theorem C9_amended_witness :
    load_from_backend (save_to_backend t2) = some ⟨t2.files, t2.dirs⟩ ∧
    (userFiles t2rev).length = (userFiles t2).length ∧
    t2rev.dirs.length = t2.dirs.length ∧
    ((userFiles t2rev).map serFile).Perm ((userFiles t2).map serFile) ∧
    ((t2rev.dirs.map (fun d => serU32 d.length ++ d)).Perm
      (t2.dirs.map (fun d => serU32 d.length ++ d))) ∧
    (load_from_backend (save_to_backend t2)).map save_to_backend =
      some (save_to_backend t2) :=
  C9_amended t2 t2rev
    (by refine ⟨by decide, by decide, ?_, by decide⟩
        intro e he
        simp [t2] at he
        rcases he with he | he <;> (subst he; refine ⟨by decide, by decide, by decide, by decide⟩))
    (by intro e he
        simp [t2] at he
        rcases he with he | he <;> (subst he; decide))
    (by decide) (by decide)

/-! ## Claim C4: file-layer behaviour when a stripe has too few shards -/

theorem encodeChunks_getD_zero (data : List Nat) (k m : Nat) (h : k + m ≠ 0) :
    (encodeChunks data k m).getD 0 [] =
      natToLE 8 data.length ++ (encBody data k m).getD 0 [] := by
  unfold encodeChunks
  cases hb : encBody data k m with
  | nil =>
    exfalso
    have hl := encBody_length data k m
    rw [hb] at hl
    simp at hl
    omega
  | cons c0 rest => simp

theorem encodeChunks_getD_zero_ne_nil (data : List Nat) (k m : Nat)
    (h : k + m ≠ 0) : (encodeChunks data k m).getD 0 [] ≠ [] := by
  rw [encodeChunks_getD_zero data k m h]
  intro hc
  exact natToLE_ne_nil data.length (List.append_eq_nil.mp hc).1

/-- `ensure_stripe` on the fresh state allocates stripe 100. -/
theorem ensure_stripe_e1 : ensure_stripe "/a" 0 fmInit =
    (100, ⟨[("/a", ⟨0, [100]⟩)], fmInit.store, 101⟩) := by
  rfl

/-- The RAID read of a stripe that no backend holds fails. -/
theorem read_chunk_fresh : read_chunk 2 1 (storeReads fmInit.store 100) = none := by
  rfl

theorem read_stripe_e1 : read_stripe 2 1 100 ⟨[("/a", ⟨0, [100]⟩)], fmInit.store, 101⟩ =
    (List.replicate STRIPE_SIZE 0, ⟨[("/a", ⟨0, [100]⟩)], fmInit.store, 101⟩) := by
  unfold read_stripe
  rw [show storeReads (⟨[("/a", ⟨0, [100]⟩)], fmInit.store, 101⟩ : FMState).store 100 =
      storeReads fmInit.store 100 from rfl]
  rw [read_chunk_fresh]

theorem overlay_hello : overlay (List.replicate STRIPE_SIZE 0) 0 helloBytes =
    helloBytes ++ List.replicate (STRIPE_SIZE - 5) 0 := by
  unfold overlay helloBytes
  simp [List.drop_replicate]

theorem write_stripe_e1 :
    write_stripe 2 1 100 (helloBytes ++ List.replicate (STRIPE_SIZE - 5) 0)
      ⟨[("/a", ⟨0, [100]⟩)], fmInit.store, 101⟩ =
    some ⟨[("/a", ⟨0, [100]⟩)], e1State.store, 101⟩ := by
  unfold write_stripe write_chunk
  rw [encode_eq_some _ 2 1 (by decide) (by decide)]
  have hlen3 : (encodeChunks (helloBytes ++ List.replicate (STRIPE_SIZE - 5) 0) 2 1).length = 2 + 1 :=
    encodeChunks_length _ 2 1 (by decide)
  dsimp only
  rw [if_neg (by rw [hlen3]; simp)]
  rfl

/-- E1: writing "hello" at offset 0 of the fresh filesystem produces
exactly `e1State`. -/
theorem C4_write_e1 : fmWrite 2 1 "/a" 0 helloBytes fmInit = some e1State := by
  have hmin : min 5 (STRIPE_SIZE - 0 % STRIPE_SIZE) = 5 := by decide
  have hloop : writeLoop 2 1 "/a" 5 0 helloBytes fmInit =
      some ⟨[("/a", ⟨0, [100]⟩)], e1State.store, 101⟩ := by
    show writeLoop 2 1 "/a" (4 + 1) 0 (0x68 :: [0x65, 0x6c, 0x6c, 0x6f]) fmInit = _
    rw [writeLoop]
    rw [show (0 : Nat) / STRIPE_SIZE = 0 from rfl]
    rw [show (0 : Nat) % STRIPE_SIZE = 0 from rfl] at hmin ⊢
    rw [show ([104, 101, 108, 108, 111] : List Nat).length = 5 from rfl]
    rw [hmin, ensure_stripe_e1]
    dsimp only
    rw [read_stripe_e1]
    dsimp only
    rw [show (0x68 :: [0x65, 0x6c, 0x6c, 0x6f] : List Nat).take 5 = helloBytes from rfl]
    rw [overlay_hello, write_stripe_e1]
    rw [show (0x68 :: [0x65, 0x6c, 0x6c, 0x6f] : List Nat).drop 5 = [] from rfl]
    rfl
    simp
  unfold fmWrite
  rw [show helloBytes.length = 5 from rfl]
  rw [hloop]
  rfl

/-- After E1 deletes shards 1 and 2, the stripe-100 read sees exactly
one live shard. -/
theorem okCount_e3 : okCount (storeReads e3State.store 100) (2 + 1) = 1 := by
  have hp0 : shardPresent (storeReads e3State.store 100) 0 = true := by
    have hr : storeReads e3State.store 100 0 = some (e1Chunks.getD 0 []) := rfl
    unfold shardPresent
    rw [hr]
    have hne : e1Chunks.getD 0 [] ≠ [] :=
      encodeChunks_getD_zero_ne_nil _ 2 1 (by decide)
    cases hc : e1Chunks.getD 0 [] with
    | nil => exact absurd hc hne
    | cons a l => simp
  have hp1 : shardPresent (storeReads e3State.store 100) 1 = false := rfl
  have hp2 : shardPresent (storeReads e3State.store 100) 2 = false := rfl
  unfold okCount
  rw [show List.range (2 + 1) = [0, 1, 2] from rfl]
  rw [show ([0, 1, 2] : List Nat).filter (fun i => shardPresent (storeReads e3State.store 100) i) =
      [0] from by
    simp [List.filter, hp0, hp1, hp2]]
  rfl

theorem read_chunk_e3 : read_chunk 2 1 (storeReads e3State.store 100) = none := by
  unfold read_chunk
  rw [okCount_e3]
  rfl

/-- C4 counterexample (scenario E3).  After writing "hello" and
deleting the shards on backends 1 and 2, the file-layer read of the
first five bytes does NOT return an error: it succeeds and returns five
zero bytes (the stripe store fails internally with insufficient shards
and `FileManager::read_stripe` turns that into an all-zero stripe).
Only the last part of the claim holds: the backend-0 shard is left
unchanged. -/
theorem C4_counterexample :
    fmWrite 2 1 "/a" 0 helloBytes fmInit = some e1State ∧
    fmRead 2 1 "/a" 0 5 e3State = some (List.replicate 5 0, e3State) ∧
    List.replicate 5 0 ≠ helloBytes ∧
    e3State.store 0 100 = e1State.store 0 100 := by
  refine ⟨C4_write_e1, ?_, by decide, rfl⟩
  unfold fmRead
  rw [show get_size e3State.files "/a" = 5 from rfl]
  rw [if_neg (by omega)]
  rw [show ((if (0 : Nat) + 5 > 5 then 5 - 0 else 5) : Nat) = 5 from rfl]
  dsimp only
  have hloop : readLoop 2 1 "/a" 5 0 5 e3State = (List.replicate 5 0, e3State) := by
    show readLoop 2 1 "/a" (4 + 1) 0 5 e3State = _
    rw [readLoop]
    rw [if_neg (by omega)]
    dsimp only
    rw [show (0 : Nat) / STRIPE_SIZE = 0 from rfl]
    rw [show (0 : Nat) % STRIPE_SIZE = 0 from rfl]
    rw [show get_stripes e3State.files "/a" = [100] from rfl]
    rw [if_pos (by norm_num)]
    rw [show ([100] : List Nat).getD 0 0 = 100 from rfl]
    have hrs : read_stripe 2 1 100 e3State = (List.replicate STRIPE_SIZE 0, e3State) := by
      unfold read_stripe
      rw [read_chunk_e3]
    rw [hrs]
    dsimp only
    rw [show min 5 (STRIPE_SIZE - 0) = 5 from by decide]
    rw [show (List.replicate STRIPE_SIZE 0).drop 0 = List.replicate STRIPE_SIZE 0 from rfl]
    rw [show (List.replicate STRIPE_SIZE (0 : Nat)).take 5 = List.replicate 5 0 from by
      rw [List.take_replicate]
      rw [show min 5 STRIPE_SIZE = 5 from by decide]]
    rw [show (5 : Nat) - 5 = 0 from rfl, readLoop]
    rw [if_pos rfl]
    rw [List.append_nil]
  rw [hloop]

/-- C4 amended.  A stripe whose backends hold fewer than `k` live
shards is not an error at the file layer: the stripe-store read fails
internally, `read_stripe` substitutes `STRIPE_SIZE` zero bytes,
succeeds, and issues no backend writes, so the read returns zeros and
every surviving shard (backend 0 included) is untouched. -/
theorem C4_amended (k m stripe : Nat) (st : FMState)
    (h : okCount (storeReads st.store stripe) (k + m) < k) :
    read_stripe k m stripe st = (List.replicate STRIPE_SIZE 0, st) := by
  unfold read_stripe read_chunk
  rw [if_pos h]

/-- Witness for C4 amended on the E3 state itself. -/
theorem C4_amended_witness :
    read_stripe 2 1 100 e3State = (List.replicate STRIPE_SIZE 0, e3State) :=
  C4_amended 2 1 100 e3State (by rw [okCount_e3]; omega)

end CloudRaid





